import Mathlib

/-!
Shallow embedding of the CSS-to-SCSS variable extraction and rendering logic
of `src/convert-to-scss.js` (functions `extractVariables` and
`generateVariablesFile`), together with proofs of the specified properties.

Strings are modelled as Lean `String`s; the JavaScript regular expressions
`/#[0-9a-fA-F]{3,6}|rgba?\([^)]+\)/` and `/\d+px/` are modelled as explicit
leftmost-match scanners over the character list of the value string.
JavaScript `Set` objects are modelled as insertion-ordered duplicate-free
lists; `Array.prototype.sort` with the comparator
`(a, b) => parseInt(a) - parseInt(b)` is modelled as a stable merge sort by
the numeric value of the leading digits (JS sort is stable per ES2019).
A `TypeError` thrown by accessing `.match` on an absent declaration value is
modelled by `Except Unit`.
-/

/-- Character class `[0-9a-fA-F]` of the color regex. -/
def isHexDigit (c : Char) : Bool :=
  c.isDigit || ('a' ≤ c && c ≤ 'f') || ('A' ≤ c && c ≤ 'F')

/-- Match of `\d+px` anchored at the head of `l`: a maximal nonempty run of
decimal digits followed immediately by `px`.  Returns the matched token. -/
def matchPxAt (l : List Char) : Option (List Char) :=
  let ds := l.takeWhile Char.isDigit
  if ds.isEmpty then none
  else
    match l.dropWhile Char.isDigit with
    | 'p' :: 'x' :: _ => some (ds ++ ['p', 'x'])
    | _ => none

/-- Leftmost match of `/\d+px/` in `l` (JavaScript `String.prototype.match`
with a non-global regex returns the leftmost match). -/
def findPx : List Char → Option (List Char)
  | [] => none
  | c :: cs =>
    match matchPxAt (c :: cs) with
    | some m => some m
    | none => findPx cs

/-- Match of `#[0-9a-fA-F]{3,6}` anchored at the head of `l`: a `#` followed
by greedily three to six hex digits. -/
def matchHexAt : List Char → Option (List Char)
  | '#' :: cs =>
    let ds := (cs.takeWhile isHexDigit).take 6
    if 3 ≤ ds.length then some ('#' :: ds) else none
  | _ => none

/-- Match of `\([^)]+\)` anchored at the head of `l`, prefixed by the already
matched characters `pre`: an opening parenthesis, a nonempty run of
non-`)` characters, and a closing parenthesis. -/
def matchParen (pre : List Char) (l : List Char) : Option (List Char) :=
  match l with
  | c :: body =>
    if c = '(' then
      let inside := body.takeWhile (fun c => c ≠ ')')
      if inside.isEmpty then none
      else
        match body.dropWhile (fun c => c ≠ ')') with
        | c2 :: _ => if c2 = ')' then some (pre ++ '(' :: (inside ++ [')'])) else none
        | [] => none
    else none
  | [] => none

/-- Match of `rgba?\([^)]+\)` anchored at the head of `l`.  When the character
after `rgb` is an `a` the opening parenthesis must follow it (regex
backtracking over `a?` cannot succeed, since `a` is not `(`). -/
def matchRgbAt : List Char → Option (List Char)
  | 'r' :: 'g' :: 'b' :: 'a' :: rest => matchParen ['r', 'g', 'b', 'a'] rest
  | 'r' :: 'g' :: 'b' :: rest => matchParen ['r', 'g', 'b'] rest
  | _ => none

/-- One alternation step of `#[0-9a-fA-F]{3,6}|rgba?\([^)]+\)` at a fixed
position: the left alternative is tried first. -/
def matchColorAt (l : List Char) : Option (List Char) :=
  match matchHexAt l with
  | some m => some m
  | none => matchRgbAt l

/-- Leftmost match of the color regex in `l`. -/
def findColor : List Char → Option (List Char)
  | [] => none
  | c :: cs =>
    match matchColorAt (c :: cs) with
    | some m => some m
    | none => findColor cs

/-- `isPrefixCL needle hay` is true when `needle` is a prefix of `hay`. -/
def isPrefixCL : List Char → List Char → Bool
  | [], _ => true
  | _ :: _, [] => false
  | a :: as, b :: bs => (a = b) && isPrefixCL as bs

/-- `containsCL hay needle` models `hay.includes(needle)` on strings. -/
def containsCL : List Char → List Char → Bool
  | [], needle => needle.isEmpty
  | c :: t, needle => isPrefixCL needle (c :: t) || containsCL t needle

/-- JavaScript `String.prototype.includes`. -/
def strIncludes (hay needle : String) : Bool :=
  containsCL hay.data needle.data

/-- Decimal digit character for `d % 10`. -/
def digitChar10 (d : Nat) : Char := Char.ofNat (48 + d % 10)

/-- Decimal digit characters of `n`, most significant first (with fuel, which
`natToString` supplies amply). -/
def natDigits : Nat → Nat → List Char
  | 0, _ => []
  | fuel + 1, n =>
    if n < 10 then [digitChar10 n]
    else natDigits fuel (n / 10) ++ [digitChar10 (n % 10)]

/-- Decimal rendering of a natural number, as JavaScript template literals
render a nonnegative integer. -/
def natToString (n : Nat) : String := String.mk (natDigits (n + 1) n)

/-- Numeric value of a list of decimal digit characters. -/
def digitsToNat (l : List Char) : Nat :=
  l.foldl (fun n c => 10 * n + (c.toNat - 48)) 0

/-- JavaScript `parseInt` on the token strings this program produces: the
numeric value of the leading run of decimal digits. -/
def parseIntS (s : String) : Nat :=
  digitsToNat (s.data.takeWhile Char.isDigit)

/-- Comparison used to model `.sort((a, b) => parseInt(a) - parseInt(b))`. -/
def pxLE (a b : String) : Bool := parseIntS a ≤ parseIntS b

/-- Insertion into a JavaScript `Set` modelled as an insertion-ordered
duplicate-free list: a new element goes to the end. -/
def setAdd (l : List String) (s : String) : List String :=
  if s ∈ l then l else l ++ [s]

/-- A node of a rule's `declarations` array in the parse tree produced by the
`css` package: a declaration node carries optional `property` and `value`
strings; comment nodes are `other`. -/
inductive DeclNode where
  | declaration (property : Option String) (value : Option String)
  | other
  deriving DecidableEq

/-- A top-level node of `parsedCSS.stylesheet.rules`: a plain rule with an
optional declarations array, a media rule with its condition string and
nested rules, or any other node kind. -/
inductive RuleNode where
  | rule (declarations : Option (List DeclNode))
  | media (condition : String) (rules : List RuleNode)
  | other

/-- The three value collections accumulated by `extractVariables` and, after
sorting, returned by it (the spec's ExtractedValueSet). -/
structure ExtractedValueSet where
  colors : List String
  spacing : List String
  breakpoints : List String
  deriving DecidableEq

/-- `decl.property && decl.property.includes(needle)` (absent property is
falsy and short-circuits). -/
def propHas (prop : Option String) (needle : String) : Bool :=
  match prop with
  | some p => strIncludes p needle
  | none => false

/-- The color-property test of `extractVariables`. -/
def isColorProp (prop : Option String) : Bool :=
  propHas prop "color" || propHas prop "background" || propHas prop "border"

/-- The spacing-property test of `extractVariables`. -/
def isSpacingProp (prop : Option String) : Bool :=
  propHas prop "margin" || propHas prop "padding"

/-- The color branch of the declaration loop body, given a present value. -/
def colorStep (sets : ExtractedValueSet) (v : String) : ExtractedValueSet :=
  match findColor v.data with
  | some m => { sets with colors := setAdd sets.colors (String.mk m) }
  | none => sets

/-- The spacing branch of the declaration loop body, given a present value. -/
def spacingStep (sets : ExtractedValueSet) (v : String) : ExtractedValueSet :=
  match findPx v.data with
  | some m => { sets with spacing := setAdd sets.spacing (String.mk m) }
  | none => sets

/-- Processing of one declarations-array node.  A declaration whose property
name triggers the color or spacing branch but whose value is absent makes
`decl.value.match` throw a `TypeError`, modelled as `Except.error ()`;
otherwise the branches run in source order and cannot fail. -/
def stepDecl (sets : ExtractedValueSet) : DeclNode → Except Unit ExtractedValueSet
  | .other => .ok sets
  | .declaration prop none =>
    if isColorProp prop || isSpacingProp prop then .error () else .ok sets
  | .declaration prop (some v) =>
    let s1 := if isColorProp prop then colorStep sets v else sets
    .ok (if isSpacingProp prop then spacingStep s1 v else s1)

/-- The declaration loop (`rule.declarations.forEach`), threading the thrown
error if any declaration throws. -/
def runDecls (sets : ExtractedValueSet) : List DeclNode → Except Unit ExtractedValueSet
  | [] => .ok sets
  | d :: ds =>
    match stepDecl sets d with
    | .ok s => runDecls s ds
    | .error e => .error e

/-- Processing of one top-level rule node: a plain rule with a declarations
array runs the declaration loop; a media rule contributes the leftmost
`\d+px` token of its condition string to the breakpoint set (its nested
rules are not inspected); other nodes are ignored. -/
def stepRule (sets : ExtractedValueSet) : RuleNode → Except Unit ExtractedValueSet
  | .rule none => .ok sets
  | .rule (some ds) => runDecls sets ds
  | .media cond _nested =>
    .ok (match findPx cond.data with
      | some m => { sets with breakpoints := setAdd sets.breakpoints (String.mk m) }
      | none => sets)
  | .other => .ok sets

/-- The rule loop (`parsedCSS.stylesheet.rules.forEach`). -/
def runRules (sets : ExtractedValueSet) : List RuleNode → Except Unit ExtractedValueSet
  | [] => .ok sets
  | r :: rs =>
    match stepRule sets r with
    | .ok s => runRules s rs
    | .error e => .error e

/-- `extractVariables`: scan all top-level rules, then return the colors in
encounter order and the spacing and breakpoint sets stably sorted ascending
by `parseInt` value. -/
def extractVariables (rules : List RuleNode) : Except Unit ExtractedValueSet :=
  match runRules ⟨[], [], []⟩ rules with
  | .error e => .error e
  | .ok sets =>
    .ok { colors := sets.colors,
          spacing := sets.spacing.mergeSort pxLE,
          breakpoints := sets.breakpoints.mergeSort pxLE }

/-- Color naming in `generateVariablesFile`: the default indexed name, then
the four literal overrides reassigned in source order. -/
def colorName (color : String) (index : Nat) : String :=
  let n0 := "color-" ++ natToString (index + 1)
  let n1 := if color = "#0d0c0d" then "color-dark" else n0
  let n2 := if color = "#f0f0f0" then "color-light" else n1
  let n3 := if color = "#e6ac55" then "color-accent" else n2
  if color = "#FFFFFF" || color = "#ffffff" then "color-white" else n3

/-- The spacing bucket chosen by the threshold chain on `parseInt(value)`. -/
def spacingBucket (size : Nat) : String :=
  if size = 0 then "none"
  else if size ≤ 4 then "xs"
  else if size ≤ 8 then "sm"
  else if size ≤ 16 then "md"
  else if size ≤ 24 then "lg"
  else if size ≤ 32 then "xl"
  else "xxl"

/-- Spacing naming: the bucket name, with the global sorted-list index as a
suffix when more than one entry of the full spacing list has the same
`parseInt` value. -/
def spacingName (all : List String) (value : String) (index : Nat) : String :=
  let size := parseIntS value
  let base := "spacing-" ++ spacingBucket size
  if 1 < (all.filter fun s => parseIntS s = size).length then
    base ++ "-" ++ natToString index
  else base

/-- The breakpoint bucket chosen by the threshold chain. -/
def breakpointBucket (size : Nat) : String :=
  if size ≤ 480 then "mobile"
  else if size ≤ 768 then "tablet"
  else if size ≤ 1024 then "desktop"
  else if size ≤ 1280 then "widescreen"
  else "ultrawide"

/-- Breakpoint naming: the bucket name only, no disambiguation suffix. -/
def breakpointName (value : String) : String :=
  "breakpoint-" ++ breakpointBucket (parseIntS value)

/-- The (name, value) pairs rendered in the color section. -/
def colorVars (colors : List String) : List (String × String) :=
  colors.enum.map fun p => (colorName p.2 p.1, p.2)

/-- The (name, value) pairs rendered in the spacing section. -/
def spacingVars (spacing : List String) : List (String × String) :=
  spacing.enum.map fun p => (spacingName spacing p.2 p.1, p.2)

/-- The (name, value) pairs rendered in the breakpoint section. -/
def breakpointVars (bps : List String) : List (String × String) :=
  bps.map fun v => (breakpointName v, v)

/-- One generated variable-assignment line (without its newline). -/
def varLine (p : String × String) : String :=
  "$" ++ p.1 ++ ": " ++ p.2 ++ ";"

/-- The lines of the generated `_variables.scss` text, in order. -/
def fileLines (v : ExtractedValueSet) : List String :=
  ["// Color Variables"] ++ (colorVars v.colors).map varLine
    ++ ["", "// Spacing Variables"] ++ (spacingVars v.spacing).map varLine
    ++ ["", "// Breakpoint Variables"] ++ (breakpointVars v.breakpoints).map varLine

/-- Concatenation of lines, each terminated by a newline, exactly as the
source builds the `scss` string by successive `+=` of `...\n` pieces. -/
def concatLines : List String → String
  | [] => ""
  | l :: ls => l ++ "\n" ++ concatLines ls

/-- `generateVariablesFile`: the rendered variables text. -/
def generateVariablesFile (v : ExtractedValueSet) : String :=
  concatLines (fileLines v)

/-- The whole pure pipeline of one run: extraction then rendering, an error
propagating the thrown exception. -/
def runPipeline (rules : List RuleNode) : Except Unit String :=
  match extractVariables rules with
  | .ok v => .ok (generateVariablesFile v)
  | .error e => .error e

/-- Token shape of spacing and breakpoint entries: a nonempty run of decimal
digits immediately followed by `px` and nothing else. -/
def isPxToken (s : String) : Bool :=
  !(s.data.takeWhile Char.isDigit).isEmpty && (s.data.dropWhile Char.isDigit = ['p', 'x'])

/-- Token shape of color entries: the string is itself a full match of the
color regex at its start. -/
def isColorToken (s : String) : Bool :=
  matchColorAt s.data = some s.data

/-- Componentwise sublist-as-sets relation between two accumulator states:
the scan only ever adds entries. -/
def SubSets (a b : ExtractedValueSet) : Prop :=
  a.colors ⊆ b.colors ∧ a.spacing ⊆ b.spacing ∧ a.breakpoints ⊆ b.breakpoints

/-- The invariant maintained by the scan: each accumulator list is
duplicate-free (set semantics) and every entry has the token shape its
matcher produces. -/
def GoodSets (s : ExtractedValueSet) : Prop :=
  s.colors.Nodup ∧ s.spacing.Nodup ∧ s.breakpoints.Nodup ∧
    (∀ c ∈ s.colors, isColorToken c = true) ∧
    (∀ x ∈ s.spacing, isPxToken x = true) ∧
    (∀ x ∈ s.breakpoints, isPxToken x = true)

/-- Absence of thrown errors for a rule list: every declaration node of every
top-level plain rule carries a value string. -/
def AllValuesPresent (rules : List RuleNode) : Prop :=
  ∀ r ∈ rules, ∀ ds, r = RuleNode.rule (some ds) →
    ∀ p, DeclNode.declaration p none ∉ ds

/-- Split a character list into its newline-separated lines. -/
def splitLines : List Char → List (List Char)
  | [] => [[]]
  | c :: rest =>
    if c = '\n' then [] :: splitLines rest
    else
      match splitLines rest with
      | [] => [[c]]
      | l :: ls => (c :: l) :: ls

/-- A header or blank line of the generated variables file. -/
def isHeaderLineCL (l : List Char) : Bool :=
  l = [] || l = "// Color Variables".data || l = "// Spacing Variables".data
    || l = "// Breakpoint Variables".data

/-- A line of the exact shape of a variable assignment: it starts with a
dollar sign, ends with a semicolon, and contains a colon-space separator. -/
def isVarLineCL (l : List Char) : Bool :=
  l.head? = some '$' && l.getLast? = some ';' && containsCL l [':', ' ']

theorem takeWhile_all_append {α} (p : α → Bool) {ds : List α} (t : List α)
    (h : ∀ c ∈ ds, p c = true) : (ds ++ t).takeWhile p = ds ++ t.takeWhile p := by
  induction ds with
  | nil => simp
  | cons a as ih =>
    have ha : p a = true := h a (by simp)
    simp [List.takeWhile_cons, ha, ih fun c hc => h c (by simp [hc])]

theorem dropWhile_all_append {α} (p : α → Bool) {ds : List α} (t : List α)
    (h : ∀ c ∈ ds, p c = true) : (ds ++ t).dropWhile p = t.dropWhile p := by
  induction ds with
  | nil => simp
  | cons a as ih =>
    have ha : p a = true := h a (by simp)
    simp [List.dropWhile_cons, ha, ih fun c hc => h c (by simp [hc])]

theorem matchPxAt_shape {l m : List Char} (h : matchPxAt l = some m) :
    isPxToken (String.mk m) = true := by
  unfold matchPxAt at h
  by_cases he : (l.takeWhile Char.isDigit).isEmpty
  · simp [he] at h
  · simp only [he, if_false, Bool.false_eq_true] at h
    split at h
    · rename_i rest heq
      cases h
      have hall : ∀ c ∈ l.takeWhile Char.isDigit, Char.isDigit c = true :=
        fun c hc => List.mem_takeWhile_imp hc
      have h1 : ((l.takeWhile Char.isDigit) ++ ['p', 'x']).takeWhile Char.isDigit
          = l.takeWhile Char.isDigit := by
        rw [takeWhile_all_append Char.isDigit _ hall]; simp
      have h2 : ((l.takeWhile Char.isDigit) ++ ['p', 'x']).dropWhile Char.isDigit
          = ['p', 'x'] := by
        rw [dropWhile_all_append Char.isDigit _ hall]; simp [List.dropWhile_cons]
      simp [isPxToken, h1, h2, he]
    · cases h

theorem findPx_shape {l m : List Char} (h : findPx l = some m) :
    isPxToken (String.mk m) = true := by
  induction l with
  | nil => cases h
  | cons c cs ih =>
    unfold findPx at h
    split at h
    · rename_i heq
      cases h
      exact matchPxAt_shape heq
    · exact ih h

theorem matchHexAt_shape {l m : List Char} (h : matchHexAt l = some m) :
    matchHexAt m = some m := by
  unfold matchHexAt at h
  split at h
  · rename_i cs
    dsimp only at h
    split at h
    · rename_i hlen
      cases h
      have hall : ∀ c ∈ (cs.takeWhile isHexDigit).take 6, isHexDigit c = true :=
        fun c hc => List.mem_takeWhile_imp (List.mem_of_mem_take hc)
      have hself : ((cs.takeWhile isHexDigit).take 6).takeWhile isHexDigit
          = (cs.takeWhile isHexDigit).take 6 := List.takeWhile_eq_self_iff.mpr hall
      have hlen6 : ((cs.takeWhile isHexDigit).take 6).length ≤ 6 :=
        List.length_take_le 6 _
      simp only [matchHexAt, hself, List.take_of_length_le hlen6, hlen, if_true]
    · cases h
  · cases h

theorem matchParen_some {pre l m : List Char} (h : matchParen pre l = some m) :
    ∃ inside, inside ≠ [] ∧ (∀ c ∈ inside, c ≠ ')') ∧
      m = pre ++ '(' :: (inside ++ [')']) := by
  unfold matchParen at h
  split at h
  · rename_i c body
    dsimp only at h
    split at h
    · rename_i hc
      split at h
      · cases h
      · rename_i he
        split at h
        · rename_i c2 rest heq
          split at h
          · cases h
            refine ⟨body.takeWhile fun x => decide (x ≠ ')'), ?_, ?_, rfl⟩
            · intro hnil
              rw [hnil] at he
              simp at he
            · intro x hx
              simpa using List.mem_takeWhile_imp hx
          · cases h
        · cases h
    · cases h
  · cases h

theorem matchParen_roundtrip (pre inside : List Char) (hne : inside ≠ [])
    (hmem : ∀ c ∈ inside, c ≠ ')') :
    matchParen pre ('(' :: (inside ++ [')'])) = some (pre ++ '(' :: (inside ++ [')'])) := by
  have hmem' : ∀ c ∈ inside, (fun c => decide (c ≠ ')')) c = true := by
    intro c hc
    simp [hmem c hc]
  have h1 : (inside ++ [')']).takeWhile (fun c => decide (c ≠ ')')) = inside := by
    rw [takeWhile_all_append _ _ hmem']
    simp
  have h2 : (inside ++ [')']).dropWhile (fun c => decide (c ≠ ')')) = [')'] := by
    rw [dropWhile_all_append _ _ hmem']
    simp
  unfold matchParen
  simp only [h1, h2]
  simp [List.isEmpty_iff, hne]

theorem matchRgbAt_shape {l m : List Char} (h : matchRgbAt l = some m) :
    matchRgbAt m = some m ∧ ∃ t, m = 'r' :: t := by
  unfold matchRgbAt at h
  split at h
  · obtain ⟨inside, hne, hmem, rfl⟩ := matchParen_some h
    constructor
    · have hgoal : matchRgbAt (['r', 'g', 'b', 'a'] ++ '(' :: (inside ++ [')']))
          = matchParen ['r', 'g', 'b', 'a'] ('(' :: (inside ++ [')'])) := by
        simp [matchRgbAt]
      rw [hgoal, matchParen_roundtrip _ _ hne hmem]
    · exact ⟨'g' :: 'b' :: 'a' :: '(' :: (inside ++ [')']), by simp⟩
  · obtain ⟨inside, hne, hmem, rfl⟩ := matchParen_some h
    constructor
    · have hgoal : matchRgbAt (['r', 'g', 'b'] ++ '(' :: (inside ++ [')']))
          = matchParen ['r', 'g', 'b'] ('(' :: (inside ++ [')'])) := by
        simp [matchRgbAt]
      rw [hgoal, matchParen_roundtrip _ _ hne hmem]
    · exact ⟨'g' :: 'b' :: '(' :: (inside ++ [')']), by simp⟩
  · cases h

theorem matchColorAt_shape {l m : List Char} (h : matchColorAt l = some m) :
    matchColorAt m = some m := by
  unfold matchColorAt at h
  split at h
  · rename_i heq
    cases h
    have h2 := matchHexAt_shape heq
    unfold matchColorAt
    rw [h2]
  · rename_i heq
    obtain ⟨hrgb, t, rfl⟩ := matchRgbAt_shape h
    have hhex : matchHexAt ('r' :: t) = none := by simp [matchHexAt]
    unfold matchColorAt
    rw [hhex]
    exact hrgb

theorem findColor_shape {l m : List Char} (h : findColor l = some m) :
    isColorToken (String.mk m) = true := by
  induction l with
  | nil => cases h
  | cons c cs ih =>
    unfold findColor at h
    split at h
    · rename_i heq
      cases h
      have hc := matchColorAt_shape heq
      simp [isColorToken, hc]
    · exact ih h

theorem mem_setAdd_self (l : List String) (s : String) : s ∈ setAdd l s := by
  unfold setAdd
  split
  · assumption
  · simp

theorem mem_setAdd_of_mem {l : List String} {x : String} (s : String) (h : x ∈ l) :
    x ∈ setAdd l s := by
  unfold setAdd
  split
  · exact h
  · simp [h]

theorem mem_setAdd_cases {l : List String} {x s : String} (h : x ∈ setAdd l s) :
    x ∈ l ∨ x = s := by
  unfold setAdd at h
  split at h
  · exact Or.inl h
  · simpa using h

theorem nodup_setAdd {l : List String} (s : String) (h : l.Nodup) :
    (setAdd l s).Nodup := by
  unfold setAdd
  split
  · exact h
  · rename_i hns
    simp [List.nodup_append, h, hns]

theorem subSets_refl (a : ExtractedValueSet) : SubSets a a :=
  ⟨fun _ h => h, fun _ h => h, fun _ h => h⟩

theorem subSets_trans {a b c : ExtractedValueSet} (h1 : SubSets a b) (h2 : SubSets b c) :
    SubSets a c :=
  ⟨fun _ h => h2.1 (h1.1 h), fun _ h => h2.2.1 (h1.2.1 h), fun _ h => h2.2.2 (h1.2.2 h)⟩

theorem colorStep_sub (sets : ExtractedValueSet) (v : String) :
    SubSets sets (colorStep sets v) := by
  unfold colorStep
  split
  · exact ⟨fun x h => mem_setAdd_of_mem _ h, fun _ h => h, fun _ h => h⟩
  · exact subSets_refl _

theorem spacingStep_sub (sets : ExtractedValueSet) (v : String) :
    SubSets sets (spacingStep sets v) := by
  unfold spacingStep
  split
  · exact ⟨fun _ h => h, fun x h => mem_setAdd_of_mem _ h, fun _ h => h⟩
  · exact subSets_refl _

theorem stepDecl_sub {sets s' : ExtractedValueSet} {d : DeclNode}
    (h : stepDecl sets d = .ok s') : SubSets sets s' := by
  cases d with
  | other =>
    simp only [stepDecl] at h
    cases h
    exact subSets_refl _
  | declaration prop val =>
    cases val with
    | none =>
      simp only [stepDecl] at h
      split at h
      · cases h
      · cases h
        exact subSets_refl _
    | some v =>
      simp only [stepDecl] at h
      cases h
      refine subSets_trans (b := if isColorProp prop then colorStep sets v else sets) ?_ ?_
      · by_cases hcp : isColorProp prop = true
        · rw [if_pos hcp]
          exact colorStep_sub _ _
        · rw [if_neg hcp]
          exact subSets_refl _
      · by_cases hsp : isSpacingProp prop = true
        · rw [if_pos hsp]
          exact spacingStep_sub _ _
        · rw [if_neg hsp]
          exact subSets_refl _

theorem runDecls_sub {out : ExtractedValueSet} {ds : List DeclNode} :
    ∀ {sets : ExtractedValueSet}, runDecls sets ds = .ok out → SubSets sets out := by
  induction ds with
  | nil =>
    intro sets h
    simp only [runDecls] at h
    cases h
    exact subSets_refl _
  | cons d ds ih =>
    intro sets h
    simp only [runDecls] at h
    split at h
    · rename_i s heq
      exact subSets_trans (stepDecl_sub heq) (ih h)
    · cases h

theorem stepRule_sub {sets out : ExtractedValueSet} {r : RuleNode}
    (h : stepRule sets r = .ok out) : SubSets sets out := by
  cases r with
  | rule decls =>
    cases decls with
    | none =>
      simp only [stepRule] at h
      cases h
      exact subSets_refl _
    | some ds =>
      simp only [stepRule] at h
      exact runDecls_sub h
  | media cond nested =>
    simp only [stepRule] at h
    cases h
    split
    · exact ⟨fun _ h => h, fun _ h => h, fun x h => mem_setAdd_of_mem _ h⟩
    · exact subSets_refl _
  | other =>
    simp only [stepRule] at h
    cases h
    exact subSets_refl _

theorem runRules_sub {out : ExtractedValueSet} {rs : List RuleNode} :
    ∀ {sets : ExtractedValueSet}, runRules sets rs = .ok out → SubSets sets out := by
  induction rs with
  | nil =>
    intro sets h
    simp only [runRules] at h
    cases h
    exact subSets_refl _
  | cons r rs ih =>
    intro sets h
    simp only [runRules] at h
    split at h
    · rename_i s heq
      exact subSets_trans (stepRule_sub heq) (ih h)
    · cases h

theorem colorStep_good {sets : ExtractedValueSet} (v : String) (h : GoodSets sets) :
    GoodSets (colorStep sets v) := by
  unfold colorStep
  split
  · rename_i m heq
    obtain ⟨hc, hs, hb, hct, hst, hbt⟩ := h
    refine ⟨nodup_setAdd _ hc, hs, hb, ?_, hst, hbt⟩
    intro x hx
    rcases mem_setAdd_cases hx with hmem | rfl
    · exact hct x hmem
    · exact findColor_shape heq
  · exact h

theorem spacingStep_good {sets : ExtractedValueSet} (v : String) (h : GoodSets sets) :
    GoodSets (spacingStep sets v) := by
  unfold spacingStep
  split
  · rename_i m heq
    obtain ⟨hc, hs, hb, hct, hst, hbt⟩ := h
    refine ⟨hc, nodup_setAdd _ hs, hb, hct, ?_, hbt⟩
    intro x hx
    rcases mem_setAdd_cases hx with hmem | rfl
    · exact hst x hmem
    · exact findPx_shape heq
  · exact h

theorem stepDecl_good {sets s' : ExtractedValueSet} {d : DeclNode}
    (h : stepDecl sets d = .ok s') (hg : GoodSets sets) : GoodSets s' := by
  cases d with
  | other =>
    simp only [stepDecl] at h
    cases h
    exact hg
  | declaration prop val =>
    cases val with
    | none =>
      simp only [stepDecl] at h
      split at h
      · cases h
      · cases h
        exact hg
    | some v =>
      simp only [stepDecl] at h
      cases h
      have h1 : GoodSets (if isColorProp prop then colorStep sets v else sets) := by
        by_cases hcp : isColorProp prop = true
        · rw [if_pos hcp]
          exact colorStep_good v hg
        · rw [if_neg hcp]
          exact hg
      by_cases hsp : isSpacingProp prop = true
      · rw [if_pos hsp]
        exact spacingStep_good v h1
      · rw [if_neg hsp]
        exact h1

theorem runDecls_good {out : ExtractedValueSet} {ds : List DeclNode} :
    ∀ {sets : ExtractedValueSet}, runDecls sets ds = .ok out → GoodSets sets → GoodSets out := by
  induction ds with
  | nil =>
    intro sets h hg
    simp only [runDecls] at h
    cases h
    exact hg
  | cons d ds ih =>
    intro sets h hg
    simp only [runDecls] at h
    split at h
    · rename_i s heq
      exact ih h (stepDecl_good heq hg)
    · cases h

theorem stepRule_good {sets out : ExtractedValueSet} {r : RuleNode}
    (h : stepRule sets r = .ok out) (hg : GoodSets sets) : GoodSets out := by
  cases r with
  | rule decls =>
    cases decls with
    | none =>
      simp only [stepRule] at h
      cases h
      exact hg
    | some ds =>
      simp only [stepRule] at h
      exact runDecls_good h hg
  | media cond nested =>
    simp only [stepRule] at h
    cases h
    split
    · rename_i m heq
      obtain ⟨hc, hs, hb, hct, hst, hbt⟩ := hg
      refine ⟨hc, hs, nodup_setAdd _ hb, hct, hst, ?_⟩
      intro x hx
      rcases mem_setAdd_cases hx with hmem | rfl
      · exact hbt x hmem
      · exact findPx_shape heq
    · exact hg
  | other =>
    simp only [stepRule] at h
    cases h
    exact hg

theorem runRules_good {out : ExtractedValueSet} {rs : List RuleNode} :
    ∀ {sets : ExtractedValueSet}, runRules sets rs = .ok out → GoodSets sets → GoodSets out := by
  induction rs with
  | nil =>
    intro sets h hg
    simp only [runRules] at h
    cases h
    exact hg
  | cons r rs ih =>
    intro sets h hg
    simp only [runRules] at h
    split at h
    · rename_i s heq
      exact ih h (stepRule_good heq hg)
    · cases h

theorem goodSets_empty : GoodSets ⟨[], [], []⟩ := by
  refine ⟨List.nodup_nil, List.nodup_nil, List.nodup_nil, ?_, ?_, ?_⟩ <;> intro x hx <;> cases hx

theorem extractVariables_good {rules : List RuleNode} {v : ExtractedValueSet}
    (h : extractVariables rules = .ok v) : GoodSets v := by
  unfold extractVariables at h
  split at h
  · cases h
  · rename_i sets heq
    cases h
    obtain ⟨hc, hs, hb, hct, hst, hbt⟩ := runRules_good heq goodSets_empty
    refine ⟨hc, ((sets.spacing.mergeSort_perm pxLE).nodup_iff).mpr hs,
      ((sets.breakpoints.mergeSort_perm pxLE).nodup_iff).mpr hb, hct, ?_, ?_⟩
    · intro x hx
      exact hst x (List.mem_mergeSort.mp hx)
    · intro x hx
      exact hbt x (List.mem_mergeSort.mp hx)

theorem extractVariables_eq {rules : List RuleNode} {v : ExtractedValueSet}
    (h : extractVariables rules = .ok v) :
    ∃ sets, runRules ⟨[], [], []⟩ rules = .ok sets ∧
      v.colors = sets.colors ∧
      v.spacing = sets.spacing.mergeSort pxLE ∧
      v.breakpoints = sets.breakpoints.mergeSort pxLE := by
  unfold extractVariables at h
  split at h
  · cases h
  · rename_i sets heq
    cases h
    exact ⟨sets, heq, rfl, rfl, rfl⟩

theorem pxLE_trans (a b c : String) : pxLE a b → pxLE b c → pxLE a c := by
  simp only [pxLE, decide_eq_true_eq]
  omega

theorem pxLE_total (a b : String) : pxLE a b || pxLE b a := by
  simp only [pxLE, Bool.or_eq_true, decide_eq_true_eq]
  omega

theorem filter_mergeSort_stable (l : List String) (n : Nat) :
    (l.mergeSort pxLE).filter (fun s => parseIntS s = n)
      = l.filter (fun s => parseIntS s = n) := by
  have hsub : List.Sublist (l.filter fun s => decide (parseIntS s = n)) l :=
    List.filter_sublist l
  have hpair : (l.filter fun s => decide (parseIntS s = n)).Pairwise
      (fun a b => pxLE a b = true) := by
    apply List.pairwise_of_forall_mem_list
    intro a ha b hb
    have ha' : parseIntS a = n := of_decide_eq_true (List.mem_filter.mp ha).2
    have hb' : parseIntS b = n := of_decide_eq_true (List.mem_filter.mp hb).2
    simp [pxLE, ha', hb']
  have hsub2 : List.Sublist (l.filter fun s => decide (parseIntS s = n)) (l.mergeSort pxLE) :=
    List.sublist_mergeSort pxLE_trans pxLE_total hpair hsub
  have hsub3 : List.Sublist
      ((l.filter fun s => decide (parseIntS s = n)).filter
        fun s => decide (parseIntS s = n))
      ((l.mergeSort pxLE).filter fun s => decide (parseIntS s = n)) :=
    hsub2.filter _
  have heq2 : ((l.filter fun s => decide (parseIntS s = n)).filter
      fun s => decide (parseIntS s = n)) = l.filter fun s => decide (parseIntS s = n) := by
    rw [List.filter_eq_self]
    intro a ha
    exact (List.mem_filter.mp ha).2
  rw [heq2] at hsub3
  have hperm : List.Perm ((l.mergeSort pxLE).filter fun s => decide (parseIntS s = n))
      (l.filter fun s => decide (parseIntS s = n)) :=
    (List.mergeSort_perm l pxLE).filter _
  exact (hsub3.eq_of_length hperm.length_eq.symm).symm

theorem spacingStep_mem {v : String} {tok : List Char} (sets : ExtractedValueSet)
    (h : findPx v.data = some tok) : String.mk tok ∈ (spacingStep sets v).spacing := by
  unfold spacingStep
  rw [h]
  exact mem_setAdd_self _ _

theorem stepDecl_mem_spacing {sets s' : ExtractedValueSet} {prop : Option String}
    {v : String} {tok : List Char} (hsp : isSpacingProp prop = true)
    (hfind : findPx v.data = some tok)
    (h : stepDecl sets (.declaration prop (some v)) = .ok s') :
    String.mk tok ∈ s'.spacing := by
  simp only [stepDecl] at h
  cases h
  rw [if_pos hsp]
  exact spacingStep_mem _ hfind

theorem runDecls_mem_spacing {prop : Option String} {v : String} {tok : List Char}
    (hsp : isSpacingProp prop = true) (hfind : findPx v.data = some tok) :
    ∀ {ds : List DeclNode}, DeclNode.declaration prop (some v) ∈ ds →
      ∀ {sets out : ExtractedValueSet}, runDecls sets ds = .ok out →
        String.mk tok ∈ out.spacing := by
  intro ds
  induction ds with
  | nil =>
    intro hd
    cases hd
  | cons d ds ih =>
    intro hd sets out h
    simp only [runDecls] at h
    split at h
    · rename_i s heq
      rcases List.mem_cons.mp hd with rfl | hmem
      · exact (runDecls_sub h).2.1 (stepDecl_mem_spacing hsp hfind heq)
      · exact ih hmem h
    · cases h

theorem runRules_mem_spacing {ds : List DeclNode} {prop : Option String} {v : String}
    {tok : List Char} (hd : DeclNode.declaration prop (some v) ∈ ds)
    (hsp : isSpacingProp prop = true) (hfind : findPx v.data = some tok) :
    ∀ {rs : List RuleNode}, RuleNode.rule (some ds) ∈ rs →
      ∀ {sets out : ExtractedValueSet}, runRules sets rs = .ok out →
        String.mk tok ∈ out.spacing := by
  intro rs
  induction rs with
  | nil =>
    intro hr
    cases hr
  | cons r rs ih =>
    intro hr sets out h
    simp only [runRules] at h
    split at h
    · rename_i s heq
      rcases List.mem_cons.mp hr with rfl | hmem
      · have hstep : runDecls sets ds = .ok s := by simpa [stepRule] using heq
        exact (runRules_sub h).2.1 (runDecls_mem_spacing hsp hfind hd hstep)
      · exact ih hmem h
    · cases h

theorem colorVars_snd (colors : List String) :
    (colorVars colors).map Prod.snd = colors := by
  unfold colorVars
  rw [List.map_map]
  exact List.enumFrom_map_snd 0 colors

theorem spacingVars_snd (spacing : List String) :
    (spacingVars spacing).map Prod.snd = spacing := by
  unfold spacingVars
  rw [List.map_map]
  exact List.enumFrom_map_snd 0 spacing

theorem breakpointVars_snd (bps : List String) :
    (breakpointVars bps).map Prod.snd = bps := by
  unfold breakpointVars
  rw [List.map_map]
  exact List.map_id bps

theorem extractVariables_eval {rules : List RuleNode} (sets : ExtractedValueSet)
    (h : runRules ⟨[], [], []⟩ rules = .ok sets)
    (hs : sets.spacing.Pairwise fun a b => pxLE a b = true)
    (hb : sets.breakpoints.Pairwise fun a b => pxLE a b = true) :
    extractVariables rules = .ok ⟨sets.colors, sets.spacing, sets.breakpoints⟩ := by
  unfold extractVariables
  rw [h]
  dsimp only
  rw [List.mergeSort_of_sorted hs, List.mergeSort_of_sorted hb]

theorem runDecls_ok (ds : List DeclNode) (h : ∀ p, DeclNode.declaration p none ∉ ds) :
    ∀ sets, ∃ out, runDecls sets ds = .ok out := by
  induction ds with
  | nil =>
    intro sets
    exact ⟨sets, rfl⟩
  | cons d ds ih =>
    intro sets
    have hd : ∀ p, DeclNode.declaration p none ∉ ds :=
      fun p hp => h p (List.mem_cons_of_mem _ hp)
    have hstep : ∃ s1, stepDecl sets d = .ok s1 := by
      cases d with
      | other => exact ⟨sets, rfl⟩
      | declaration prop val =>
        cases val with
        | none => exact absurd (List.mem_cons_self _ _) (h prop)
        | some v => exact ⟨_, rfl⟩
    obtain ⟨s1, hs1⟩ := hstep
    obtain ⟨out, hout⟩ := ih hd s1
    refine ⟨out, ?_⟩
    simp only [runDecls]
    rw [hs1]
    exact hout

theorem runRules_ok (rs : List RuleNode) (h : AllValuesPresent rs) :
    ∀ sets, ∃ out, runRules sets rs = .ok out := by
  induction rs with
  | nil =>
    intro sets
    exact ⟨sets, rfl⟩
  | cons r rs ih =>
    intro sets
    have hr : AllValuesPresent rs :=
      fun r' hr' => h r' (List.mem_cons_of_mem _ hr')
    have hstep : ∃ s1, stepRule sets r = .ok s1 := by
      cases r with
      | rule decls =>
        cases decls with
        | none => exact ⟨sets, rfl⟩
        | some ds => exact runDecls_ok ds (h _ (List.mem_cons_self _ _) ds rfl) sets
      | media cond nested => exact ⟨_, rfl⟩
      | other => exact ⟨sets, rfl⟩
    obtain ⟨s1, hs1⟩ := hstep
    obtain ⟨out, hout⟩ := ih hr s1
    refine ⟨out, ?_⟩
    simp only [runRules]
    rw [hs1]
    exact hout

/-- Claim C3, corrected: a declaration whose property name triggers the color
or spacing branch but whose value is absent makes the extraction throw (the
counterexample); for parse trees in which every declaration carries a value
string the extraction never errors, and a declaration whose value matches
neither pattern is skipped with no entry added. -/
theorem c3_no_throw_and_skip :
    (∀ rules, AllValuesPresent rules → ∃ v, extractVariables rules = .ok v) ∧
    (∀ sets prop v, findColor (String.data v) = none → findPx (String.data v) = none →
      stepDecl sets (DeclNode.declaration prop (some v)) = .ok sets) := by
  constructor
  · intro rules h
    obtain ⟨sets, hrun⟩ := runRules_ok rules h ⟨[], [], []⟩
    refine ⟨⟨sets.colors, sets.spacing.mergeSort pxLE, sets.breakpoints.mergeSort pxLE⟩, ?_⟩
    unfold extractVariables
    rw [hrun]
  · intro sets prop v hc hp
    simp [stepDecl, colorStep, spacingStep, hc, hp]

/-- Claim C3 counterexample: a structurally well-formed declaration node whose
property contains "color" but whose value is absent aborts the whole
extraction with an error instead of being skipped. -/
theorem c3_counterexample :
    extractVariables [RuleNode.rule (some [DeclNode.declaration (some "color") none])]
      = .error () := rfl

/-- Claim C3 witness. -/
theorem c3_witness :
    ∃ v, extractVariables
        [RuleNode.rule (some [DeclNode.declaration (some "margin") (some "4px")])]
      = .ok v := by
  apply c3_no_throw_and_skip.1
  intro r hr ds heq p hp
  rw [List.mem_singleton] at hr
  subst hr
  cases heq
  rw [List.mem_singleton] at hp
  cases hp

/-- Claim C4, corrected: the scan only visits declarations of top-level plain
rules; for every such declaration whose property name contains "margin" or
"padding", the first integer-px token of its value ends up in the extracted
spacing sequence.  Declarations of rules nested inside media rules are never
inspected (the counterexample). -/
theorem c4_top_level_spacing (rules : List RuleNode) (ds : List DeclNode)
    (p v : String) (tok : List Char) (ex : ExtractedValueSet)
    (hr : RuleNode.rule (some ds) ∈ rules)
    (hd : DeclNode.declaration (some p) (some v) ∈ ds)
    (hp : strIncludes p "margin" = true ∨ strIncludes p "padding" = true)
    (hfind : findPx (String.data v) = some tok)
    (hex : extractVariables rules = .ok ex) :
    String.mk tok ∈ ex.spacing := by
  obtain ⟨sets, hrun, hc, hs, hb⟩ := extractVariables_eq hex
  have hsp : isSpacingProp (some p) = true := by
    rcases hp with h | h <;> simp [isSpacingProp, propHas, h]
  have hmem := runRules_mem_spacing hd hsp hfind hr hrun
  rw [hs]
  exact List.mem_mergeSort.mpr hmem

/-- Claim C4 counterexample: a `margin: 10px` declaration inside a rule nested
in a media rule contributes nothing to the spacing set. -/
theorem c4_counterexample :
    ¬ (∀ ex, extractVariables
        [RuleNode.media "(min-width: 600px)"
          [RuleNode.rule (some [DeclNode.declaration (some "margin") (some "10px")])]]
        = .ok ex → "10px" ∈ ex.spacing) := by
  intro h
  have hmem := h ⟨[], [], ["600px"]⟩
    (extractVariables_eval ⟨[], [], ["600px"]⟩ rfl (by decide) (by decide))
  simp at hmem

/-- Claim C4 witness. -/
theorem c4_witness : "10px" ∈ (["10px"] : List String) :=
  c4_top_level_spacing
    [RuleNode.rule (some [DeclNode.declaration (some "margin") (some "10px")])]
    [DeclNode.declaration (some "margin") (some "10px")]
    "margin" "10px" (String.data "10px") ⟨[], ["10px"], []⟩
    (List.mem_singleton.mpr rfl) (List.mem_singleton.mpr rfl)
    (Or.inl (by decide)) rfl
    (extractVariables_eval ⟨[], ["10px"], []⟩ rfl (by decide) (by decide))

/-- Claim C2, corrected: the disambiguation suffix is driven by the integer
magnitude (`parseInt`) of the value, not by its bucket: a spacing value whose
magnitude is unique in the full sorted sequence is named by its bare bucket
even when another value shares its bucket (the counterexample), while a value
whose magnitude occurs more than once receives the suffix equal to its index
in the full sorted spacing sequence. -/
theorem c2_suffix_by_magnitude (all : List String) (value : String) (index : Nat) :
    ((all.filter fun s => parseIntS s = parseIntS value).length ≤ 1 →
      spacingName all value index = "spacing-" ++ spacingBucket (parseIntS value)) ∧
    (1 < (all.filter fun s => parseIntS s = parseIntS value).length →
      spacingName all value index
        = "spacing-" ++ spacingBucket (parseIntS value) ++ "-" ++ natToString index) := by
  constructor
  · intro h
    unfold spacingName
    rw [if_neg]
    omega
  · intro h
    unfold spacingName
    rw [if_pos h]

/-- Claim C2 counterexample: `6px` and `8px` are two distinct spacing values
in the same bucket (`sm`), yet neither receives a numeric suffix — both are
rendered as `spacing-sm`. -/
theorem c2_counterexample :
    extractVariables
        [RuleNode.rule (some [DeclNode.declaration (some "margin") (some "6px"),
          DeclNode.declaration (some "padding") (some "8px")])]
      = .ok ⟨[], ["6px", "8px"], []⟩ ∧
    "6px" ≠ "8px" ∧
    spacingBucket (parseIntS "6px") = spacingBucket (parseIntS "8px") ∧
    (spacingVars ["6px", "8px"]).map Prod.fst = ["spacing-sm", "spacing-sm"] :=
  ⟨extractVariables_eval ⟨[], ["6px", "8px"], []⟩ rfl (by decide) (by decide),
    by decide, rfl, rfl⟩

/-- Claim C2 witness. -/
theorem c2_witness :
    spacingName ["8px", "08px"] "8px" 0
      = "spacing-" ++ spacingBucket (parseIntS "8px") ++ "-" ++ natToString 0 :=
  (c2_suffix_by_magnitude ["8px", "08px"] "8px" 0).2 (by decide)

/-- Claim C6: spacing classification is by the fixed thresholds on the integer
pixel magnitude, and the stylesheet with exactly the declarations
`margin: 8px 0 8px 0;` and `padding: 16px 16px 16px 16px;` yields the spacing
set {8px, 16px} rendered as `spacing-sm` and `spacing-md` with no suffix. -/
theorem c6_spacing_thresholds :
    spacingBucket 0 = "none" ∧
    (∀ n, 1 ≤ n → n ≤ 4 → spacingBucket n = "xs") ∧
    (∀ n, 5 ≤ n → n ≤ 8 → spacingBucket n = "sm") ∧
    (∀ n, 9 ≤ n → n ≤ 16 → spacingBucket n = "md") ∧
    (∀ n, 17 ≤ n → n ≤ 24 → spacingBucket n = "lg") ∧
    (∀ n, 25 ≤ n → n ≤ 32 → spacingBucket n = "xl") ∧
    (∀ n, 33 ≤ n → spacingBucket n = "xxl") ∧
    extractVariables
        [RuleNode.rule (some [DeclNode.declaration (some "margin") (some "8px 0 8px 0"),
          DeclNode.declaration (some "padding") (some "16px 16px 16px 16px")])]
      = .ok ⟨[], ["8px", "16px"], []⟩ ∧
    (spacingVars ["8px", "16px"]).map Prod.fst = ["spacing-sm", "spacing-md"] := by
  refine ⟨rfl, ?_, ?_, ?_, ?_, ?_, ?_,
    extractVariables_eval ⟨[], ["8px", "16px"], []⟩ rfl (by decide) (by decide), rfl⟩
  · intro n h1 h2
    unfold spacingBucket
    rw [if_neg (by omega), if_pos (by omega)]
  · intro n h1 h2
    unfold spacingBucket
    rw [if_neg (by omega), if_neg (by omega), if_pos (by omega)]
  · intro n h1 h2
    unfold spacingBucket
    rw [if_neg (by omega), if_neg (by omega), if_neg (by omega), if_pos (by omega)]
  · intro n h1 h2
    unfold spacingBucket
    rw [if_neg (by omega), if_neg (by omega), if_neg (by omega), if_neg (by omega),
      if_pos (by omega)]
  · intro n h1 h2
    unfold spacingBucket
    rw [if_neg (by omega), if_neg (by omega), if_neg (by omega), if_neg (by omega),
      if_neg (by omega), if_pos (by omega)]
  · intro n h1
    unfold spacingBucket
    rw [if_neg (by omega), if_neg (by omega), if_neg (by omega), if_neg (by omega),
      if_neg (by omega), if_neg (by omega)]

/-- Claim C6 witness. -/
theorem c6_witness : spacingBucket 7 = "sm" :=
  c6_spacing_thresholds.2.2.1 7 (by decide) (by decide)

/-- Claim C7: breakpoint classification is by the fixed thresholds on the
integer pixel magnitude with no disambiguation suffix, and a media condition
`(max-width: 600px)` adds `600px` to the breakpoint set, rendered as
`breakpoint-tablet`. -/
theorem c7_breakpoint_thresholds :
    (∀ n, n ≤ 480 → breakpointBucket n = "mobile") ∧
    (∀ n, 481 ≤ n → n ≤ 768 → breakpointBucket n = "tablet") ∧
    (∀ n, 769 ≤ n → n ≤ 1024 → breakpointBucket n = "desktop") ∧
    (∀ n, 1025 ≤ n → n ≤ 1280 → breakpointBucket n = "widescreen") ∧
    (∀ n, 1281 ≤ n → breakpointBucket n = "ultrawide") ∧
    (∀ v, breakpointName v = "breakpoint-" ++ breakpointBucket (parseIntS v)) ∧
    extractVariables [RuleNode.media "(max-width: 600px)" []] = .ok ⟨[], [], ["600px"]⟩ ∧
    breakpointVars ["600px"] = [("breakpoint-tablet", "600px")] := by
  refine ⟨?_, ?_, ?_, ?_, ?_, fun v => rfl,
    extractVariables_eval ⟨[], [], ["600px"]⟩ rfl (by decide) (by decide), rfl⟩
  · intro n h1
    unfold breakpointBucket
    rw [if_pos (by omega)]
  · intro n h1 h2
    unfold breakpointBucket
    rw [if_neg (by omega), if_pos (by omega)]
  · intro n h1 h2
    unfold breakpointBucket
    rw [if_neg (by omega), if_neg (by omega), if_pos (by omega)]
  · intro n h1 h2
    unfold breakpointBucket
    rw [if_neg (by omega), if_neg (by omega), if_neg (by omega), if_pos (by omega)]
  · intro n h1
    unfold breakpointBucket
    rw [if_neg (by omega), if_neg (by omega), if_neg (by omega), if_neg (by omega)]

/-- Claim C7 witness. -/
theorem c7_witness : breakpointBucket 600 = "tablet" :=
  c7_breakpoint_thresholds.2.1 600 (by decide) (by decide)

/-- Claim C8: the default color name at 0-based encounter position `i` is
`color-(i+1)`; the four exact-string overrides take precedence, matching
case-sensitively except that `#FFFFFF` and `#ffffff` both map to
`color-white`; in particular `#e6ac55` is named `color-accent` at every
index. -/
theorem c8_color_naming :
    (∀ i, colorName "#e6ac55" i = "color-accent") ∧
    (∀ i, colorName "#0d0c0d" i = "color-dark") ∧
    (∀ i, colorName "#f0f0f0" i = "color-light") ∧
    (∀ i, colorName "#FFFFFF" i = "color-white") ∧
    (∀ i, colorName "#ffffff" i = "color-white") ∧
    (∀ c i, c ≠ "#0d0c0d" → c ≠ "#f0f0f0" → c ≠ "#e6ac55" → c ≠ "#FFFFFF" →
      c ≠ "#ffffff" → colorName c i = "color-" ++ natToString (i + 1)) := by
  refine ⟨fun i => rfl, fun i => rfl, fun i => rfl, fun i => rfl, fun i => rfl, ?_⟩
  intro c i h1 h2 h3 h4 h5
  simp [colorName, h1, h2, h3, h4, h5]

/-- Claim C8 witness. -/
theorem c8_witness : colorName "#123456" 2 = "color-" ++ natToString 3 :=
  c8_color_naming.2.2.2.2.2 "#123456" 2 (by decide) (by decide) (by decide) (by decide)
    (by decide)

/-- Claim C9: extraction followed by rendering is a pure, deterministic
function of the parsed stylesheet: any two runs of the pipeline on the same
input produce the same result, hence byte-identical variables text. -/
theorem c9_deterministic (rules : List RuleNode) (out1 out2 : Except Unit String)
    (h1 : runPipeline rules = out1) (h2 : runPipeline rules = out2) : out1 = out2 :=
  h1.symm.trans h2

/-- Claim C9 witness. -/
theorem c9_witness : runPipeline [] = Except.ok (generateVariablesFile ⟨[], [], []⟩) := by
  have he : extractVariables [] = Except.ok ⟨[], [], []⟩ :=
    extractVariables_eval ⟨[], [], []⟩ rfl (by decide) (by decide)
  have hx : runPipeline [] = Except.ok (generateVariablesFile ⟨[], [], []⟩) := by
    unfold runPipeline
    rw [he]
  exact c9_deterministic [] (runPipeline [])
    (Except.ok (generateVariablesFile ⟨[], [], []⟩)) rfl hx

/-- Claim C1, corrected: for every successfully extracted value set, every
value of each category appears exactly once among the rendered (name, value)
assignment pairs of that category — no value is dropped or duplicated.  Name
uniqueness within a category does not hold in general (the counterexample:
`#FFFFFF` and `#ffffff` are distinct set entries both named `color-white`;
likewise distinct same-bucket spacing or breakpoint values can share a
name). -/
theorem c1_values_exactly_once {rules : List RuleNode} {v : ExtractedValueSet}
    (h : extractVariables rules = .ok v) :
    (∀ c ∈ v.colors, ((colorVars v.colors).map Prod.snd).count c = 1) ∧
    (∀ s ∈ v.spacing, ((spacingVars v.spacing).map Prod.snd).count s = 1) ∧
    (∀ b ∈ v.breakpoints, ((breakpointVars v.breakpoints).map Prod.snd).count b = 1) := by
  obtain ⟨hc, hs, hb, _, _, _⟩ := extractVariables_good h
  refine ⟨?_, ?_, ?_⟩
  · intro c hcm
    rw [colorVars_snd]
    exact List.count_eq_one_of_mem hc hcm
  · intro s hsm
    rw [spacingVars_snd]
    exact List.count_eq_one_of_mem hs hsm
  · intro b hbm
    rw [breakpointVars_snd]
    exact List.count_eq_one_of_mem hb hbm

/-- Claim C1 counterexample: a stylesheet with the two distinct color values
`#FFFFFF` and `#ffffff` renders two color variables with the same name
`color-white`. -/
theorem c1_counterexample :
    extractVariables
        [RuleNode.rule (some [DeclNode.declaration (some "color") (some "#FFFFFF"),
          DeclNode.declaration (some "background") (some "#ffffff")])]
      = .ok ⟨["#FFFFFF", "#ffffff"], [], []⟩ ∧
    (colorVars ["#FFFFFF", "#ffffff"]).map Prod.fst = ["color-white", "color-white"] ∧
    ¬ ((colorVars ["#FFFFFF", "#ffffff"]).map Prod.fst).Nodup :=
  ⟨extractVariables_eval ⟨["#FFFFFF", "#ffffff"], [], []⟩ rfl (by decide) (by decide),
    rfl, by decide⟩

/-- Claim C1 witness. -/
theorem c1_witness :
    ((colorVars ["#aabbcc"]).map Prod.snd).count "#aabbcc" = 1 := by
  have he : extractVariables
      [RuleNode.rule (some [DeclNode.declaration (some "color") (some "#aabbcc")])]
      = Except.ok ⟨["#aabbcc"], [], []⟩ :=
    extractVariables_eval ⟨["#aabbcc"], [], []⟩ rfl (by decide) (by decide)
  exact (c1_values_exactly_once he).1 "#aabbcc" (by decide)

/-- Claim C5: the extracted spacing and breakpoint sequences are sorted
ascending by the integer value embedded in each token, ties keeping the
relative discovery order of the accumulated set (stability expressed as
filter-equality against the pre-sort accumulator), while colors are returned
in encounter order, unsorted. -/
theorem c5_sorted_stable {rules : List RuleNode} {v : ExtractedValueSet}
    (h : extractVariables rules = .ok v) :
    ∃ sets, runRules ⟨[], [], []⟩ rules = .ok sets ∧
      v.colors = sets.colors ∧
      v.spacing.Pairwise (fun a b => parseIntS a ≤ parseIntS b) ∧
      v.breakpoints.Pairwise (fun a b => parseIntS a ≤ parseIntS b) ∧
      (∀ n, v.spacing.filter (fun s => parseIntS s = n)
        = sets.spacing.filter (fun s => parseIntS s = n)) ∧
      (∀ n, v.breakpoints.filter (fun s => parseIntS s = n)
        = sets.breakpoints.filter (fun s => parseIntS s = n)) := by
  obtain ⟨sets, hrun, hc, hs, hb⟩ := extractVariables_eq h
  refine ⟨sets, hrun, hc, ?_, ?_, ?_, ?_⟩
  · rw [hs]
    exact (List.sorted_mergeSort pxLE_trans pxLE_total sets.spacing).imp
      (fun hab => by simpa [pxLE] using hab)
  · rw [hb]
    exact (List.sorted_mergeSort pxLE_trans pxLE_total sets.breakpoints).imp
      (fun hab => by simpa [pxLE] using hab)
  · intro n
    rw [hs]
    exact filter_mergeSort_stable sets.spacing n
  · intro n
    rw [hb]
    exact filter_mergeSort_stable sets.breakpoints n

/-- Claim C5 witness. -/
theorem c5_witness :
    ∃ sets, runRules ⟨[], [], []⟩
        [RuleNode.rule (some [DeclNode.declaration (some "margin") (some "4px"),
          DeclNode.declaration (some "padding") (some "8px")])]
      = .ok sets ∧
      (⟨[], ["4px", "8px"], []⟩ : ExtractedValueSet).colors = sets.colors ∧
      (⟨[], ["4px", "8px"], []⟩ : ExtractedValueSet).spacing.Pairwise
        (fun a b => parseIntS a ≤ parseIntS b) ∧
      (⟨[], ["4px", "8px"], []⟩ : ExtractedValueSet).breakpoints.Pairwise
        (fun a b => parseIntS a ≤ parseIntS b) ∧
      (∀ n, (⟨[], ["4px", "8px"], []⟩ : ExtractedValueSet).spacing.filter
          (fun s => parseIntS s = n)
        = sets.spacing.filter (fun s => parseIntS s = n)) ∧
      (∀ n, (⟨[], ["4px", "8px"], []⟩ : ExtractedValueSet).breakpoints.filter
          (fun s => parseIntS s = n)
        = sets.breakpoints.filter (fun s => parseIntS s = n)) := by
  have he : extractVariables
      [RuleNode.rule (some [DeclNode.declaration (some "margin") (some "4px"),
        DeclNode.declaration (some "padding") (some "8px")])]
      = Except.ok ⟨[], ["4px", "8px"], []⟩ :=
    extractVariables_eval ⟨[], ["4px", "8px"], []⟩ rfl (by decide) (by decide)
  exact c5_sorted_stable he

theorem digitChar10_isDigit (d : Nat) : (digitChar10 d).isDigit = true := by
  unfold digitChar10
  have h : d % 10 < 10 := Nat.mod_lt d (by omega)
  have hall : ∀ m, m < 10 → (Char.ofNat (48 + m)).isDigit = true := by decide
  exact hall _ h

theorem natDigits_all_digits (fuel : Nat) :
    ∀ (n : Nat), ∀ c ∈ natDigits fuel n, c.isDigit = true := by
  induction fuel with
  | zero =>
    intro n c hc
    cases hc
  | succ fuel ih =>
    intro n c hc
    unfold natDigits at hc
    split at hc
    · rw [List.mem_singleton] at hc
      subst hc
      exact digitChar10_isDigit n
    · rw [List.mem_append] at hc
      rcases hc with hc | hc
      · exact ih (n / 10) c hc
      · rw [List.mem_singleton] at hc
        subst hc
        exact digitChar10_isDigit _

theorem natToString_no_newline (n : Nat) : '\n' ∉ (natToString n).data := by
  intro h
  have hd := natDigits_all_digits (n + 1) n '\n' h
  exact absurd hd (by decide)

theorem append_no_newline {a b : String} (ha : '\n' ∉ a.data) (hb : '\n' ∉ b.data) :
    '\n' ∉ (a ++ b).data := by
  intro h
  rw [String.data_append, List.mem_append] at h
  rcases h with h | h
  · exact ha h
  · exact hb h

theorem colorName_no_newline (c : String) (i : Nat) : '\n' ∉ (colorName c i).data := by
  have hdef : '\n' ∉ ("color-" ++ natToString (i + 1)).data :=
    append_no_newline (by decide) (natToString_no_newline _)
  simp only [colorName]
  repeat' split
  all_goals first
    | decide
    | exact hdef

theorem spacingBucket_no_newline (n : Nat) : '\n' ∉ (spacingBucket n).data := by
  unfold spacingBucket
  split
  · decide
  · split
    · decide
    · split
      · decide
      · split
        · decide
        · split
          · decide
          · split
            · decide
            · decide

theorem spacingName_no_newline (all : List String) (v : String) (i : Nat) :
    '\n' ∉ (spacingName all v i).data := by
  simp only [spacingName]
  split
  · exact append_no_newline
      (append_no_newline (append_no_newline (by decide) (spacingBucket_no_newline _))
        (by decide))
      (natToString_no_newline _)
  · exact append_no_newline (by decide) (spacingBucket_no_newline _)

theorem breakpointBucket_no_newline (n : Nat) : '\n' ∉ (breakpointBucket n).data := by
  unfold breakpointBucket
  split
  · decide
  · split
    · decide
    · split
      · decide
      · split
        · decide
        · decide

theorem breakpointName_no_newline (v : String) : '\n' ∉ (breakpointName v).data :=
  append_no_newline (by decide) (breakpointBucket_no_newline _)

theorem isPxToken_no_newline {s : String} (h : isPxToken s = true) : '\n' ∉ s.data := by
  unfold isPxToken at h
  rw [Bool.and_eq_true] at h
  obtain ⟨h1, h2⟩ := h
  intro hmem
  rw [← List.takeWhile_append_dropWhile Char.isDigit s.data, List.mem_append] at hmem
  rcases hmem with hm | hm
  · have hd := List.mem_takeWhile_imp hm
    exact absurd hd (by decide)
  · rw [of_decide_eq_true h2] at hm
    simp at hm

theorem containsCL_append_right (pre post needle : List Char)
    (h : containsCL post needle = true) : containsCL (pre ++ post) needle = true := by
  induction pre with
  | nil => simpa using h
  | cons c cs ih =>
    simp only [List.cons_append, containsCL, Bool.or_eq_true]
    exact Or.inr ih

theorem varLine_data (n v : String) :
    (varLine (n, v)).data = '$' :: (n.data ++ ':' :: ' ' :: (v.data ++ [';'])) := by
  unfold varLine
  have h1 : ("$" : String).data = ['$'] := rfl
  have h2 : (": " : String).data = [':', ' '] := rfl
  have h3 : (";" : String).data = [';'] := rfl
  simp [String.data_append, h1, h2, h3]

theorem varLine_no_newline {n v : String} (hn : '\n' ∉ n.data) (hv : '\n' ∉ v.data) :
    '\n' ∉ (varLine (n, v)).data := by
  rw [varLine_data]
  intro h
  simp only [List.mem_cons, List.mem_append] at h
  rcases h with h | h
  · exact absurd h (by decide)
  rcases h with h | h
  · exact hn h
  rcases h with h | h
  · exact absurd h (by decide)
  rcases h with h | h
  · exact absurd h (by decide)
  rcases h with h | h
  · exact hv h
  rcases h with h | h
  · exact absurd h (by decide)
  · cases h

theorem varLine_is_var_line (n v : String) : isVarLineCL (varLine (n, v)).data = true := by
  have hhead : (varLine (n, v)).data.head? = some '$' := by
    rw [varLine_data]
    rfl
  have hlast : (varLine (n, v)).data.getLast? = some ';' := by
    unfold varLine
    have h3 : (";" : String).data = [';'] := rfl
    rw [String.data_append, h3]
    exact List.getLast?_concat _
  have hcont : containsCL (varLine (n, v)).data [':', ' '] = true := by
    rw [varLine_data]
    have : ('$' :: (n.data ++ ':' :: ' ' :: (v.data ++ [';'])))
        = ('$' :: n.data) ++ (':' :: ' ' :: (v.data ++ [';'])) := by simp
    rw [this]
    apply containsCL_append_right
    simp [containsCL, isPrefixCL]
  unfold isVarLineCL
  rw [hhead, hlast, hcont]
  decide

theorem snd_mem_of_mem_enumFrom {α} {p : Nat × α} :
    ∀ {n : Nat} {l : List α}, p ∈ l.enumFrom n → p.2 ∈ l := by
  intro n l
  induction l generalizing n with
  | nil =>
    intro h
    cases h
  | cons a as ih =>
    intro h
    simp only [List.enumFrom] at h
    rcases List.mem_cons.mp h with rfl | h
    · exact List.mem_cons_self _ _
    · exact List.mem_cons_of_mem _ (ih h)

theorem splitLines_append_cons (l rest : List Char) (h : '\n' ∉ l) :
    splitLines (l ++ '\n' :: rest) = l :: splitLines rest := by
  induction l with
  | nil => simp [splitLines]
  | cons c cs ih =>
    have hc : c ≠ '\n' := fun he => h (he ▸ List.mem_cons_self _ _)
    have hcs : '\n' ∉ cs := fun hm => h (List.mem_cons_of_mem _ hm)
    simp only [List.cons_append, splitLines]
    rw [if_neg hc, List.append_eq, ih hcs]

theorem splitLines_concatLines (lines : List String) (h : ∀ l ∈ lines, '\n' ∉ l.data) :
    splitLines (concatLines lines).data = lines.map String.data ++ [[]] := by
  induction lines with
  | nil => simp [concatLines, splitLines]
  | cons l ls ih =>
    have hl : '\n' ∉ l.data := h l (List.mem_cons_self _ _)
    have hls : ∀ x ∈ ls, '\n' ∉ x.data := fun x hx => h x (List.mem_cons_of_mem _ hx)
    have hnl : ("\n" : String).data = ['\n'] := rfl
    simp only [concatLines, String.data_append, hnl]
    rw [List.append_assoc]
    simp only [List.cons_append, List.nil_append]
    rw [splitLines_append_cons _ _ hl, ih hls]
    simp

theorem fileLines_classified {v : ExtractedValueSet}
    (hvn : ∀ c ∈ v.colors, '\n' ∉ c.data)
    (hps : ∀ x ∈ v.spacing, isPxToken x = true)
    (hpb : ∀ x ∈ v.breakpoints, isPxToken x = true) :
    ∀ l ∈ fileLines v,
      '\n' ∉ l.data ∧ (isHeaderLineCL l.data || isVarLineCL l.data) = true := by
  intro l hl
  unfold fileLines at hl
  simp only [List.mem_append, List.mem_cons, List.mem_map, List.not_mem_nil,
    or_false, false_or] at hl
  rcases hl with ((((hl | hl) | (hl | hl)) | hl) | (hl | hl)) | hl
  · subst hl
    exact ⟨by decide, by decide⟩
  · obtain ⟨q, hq, rfl⟩ := hl
    rw [colorVars, List.mem_map] at hq
    obtain ⟨e, he, rfl⟩ := hq
    have hc : e.2 ∈ v.colors := snd_mem_of_mem_enumFrom he
    constructor
    · exact varLine_no_newline (colorName_no_newline _ _) (hvn _ hc)
    · rw [varLine_is_var_line]
      simp
  · subst hl
    exact ⟨by decide, by decide⟩
  · subst hl
    exact ⟨by decide, by decide⟩
  · obtain ⟨q, hq, rfl⟩ := hl
    rw [spacingVars, List.mem_map] at hq
    obtain ⟨e, he, rfl⟩ := hq
    have hs : e.2 ∈ v.spacing := snd_mem_of_mem_enumFrom he
    constructor
    · exact varLine_no_newline (spacingName_no_newline _ _ _)
        (isPxToken_no_newline (hps _ hs))
    · rw [varLine_is_var_line]
      simp
  · subst hl
    exact ⟨by decide, by decide⟩
  · subst hl
    exact ⟨by decide, by decide⟩
  · obtain ⟨x, hx, rfl⟩ := hl
    rw [breakpointVars, List.mem_map] at hx
    obtain ⟨b, hb, rfl⟩ := hx
    constructor
    · exact varLine_no_newline (breakpointName_no_newline _)
        (isPxToken_no_newline (hpb _ hb))
    · rw [varLine_is_var_line]
      simp

/-- Claim C10, corrected: every extracted spacing and breakpoint string is a
nonempty digit run followed by `px`, and every extracted color matches the
color pattern.  Every line of the rendered file is a section header, a blank
line, or a `$name: value;` assignment line — provided no extracted color
value contains a newline character; a color value carrying a newline (legal
in a CSS declaration value) breaks the line shape (the counterexample). -/
theorem c10_token_and_line_shapes {rules : List RuleNode} {v : ExtractedValueSet}
    (h : extractVariables rules = .ok v) :
    (∀ s ∈ v.spacing, isPxToken s = true) ∧
    (∀ b ∈ v.breakpoints, isPxToken b = true) ∧
    (∀ c ∈ v.colors, isColorToken c = true) ∧
    ((∀ c ∈ v.colors, '\n' ∉ c.data) →
      ∀ l ∈ splitLines (generateVariablesFile v).data,
        (isHeaderLineCL l || isVarLineCL l) = true) := by
  obtain ⟨_, _, _, hct, hst, hbt⟩ := extractVariables_good h
  refine ⟨hst, hbt, hct, ?_⟩
  intro hvn l hl
  have hclass := fileLines_classified hvn hst hbt
  have hnl : ∀ x ∈ fileLines v, '\n' ∉ x.data := fun x hx => (hclass x hx).1
  unfold generateVariablesFile at hl
  rw [splitLines_concatLines _ hnl, List.mem_append] at hl
  rcases hl with hl | hl
  · obtain ⟨x, hx, rfl⟩ := List.mem_map.mp hl
    exact (hclass x hx).2
  · rw [List.mem_singleton] at hl
    subst hl
    decide

/-- Claim C10 counterexample: the color value `rgba(0,\n0,0)` (which matches
the color pattern) carries a newline into the rendered text, so splitting the
generated file on newlines yields a line that is neither a header nor of the
`$name: value;` shape. -/
theorem c10_counterexample :
    extractVariables
        [RuleNode.rule (some [DeclNode.declaration (some "color")
          (some "rgba(0,\n0,0)")])]
      = .ok ⟨["rgba(0,\n0,0)"], [], []⟩ ∧
    ((splitLines (generateVariablesFile ⟨["rgba(0,\n0,0)"], [], []⟩).data).all
      fun l => isHeaderLineCL l || isVarLineCL l) = false :=
  ⟨extractVariables_eval ⟨["rgba(0,\n0,0)"], [], []⟩ rfl (by decide) (by decide),
    by decide⟩

/-- Claim C10 witness. -/
theorem c10_witness :
    ((splitLines (generateVariablesFile ⟨["#aabbcc"], ["4px"], []⟩).data).all
      fun l => isHeaderLineCL l || isVarLineCL l) = true := by
  have he : extractVariables
      [RuleNode.rule (some [DeclNode.declaration (some "color") (some "#aabbcc"),
        DeclNode.declaration (some "margin") (some "4px")])]
      = Except.ok ⟨["#aabbcc"], ["4px"], []⟩ :=
    extractVariables_eval ⟨["#aabbcc"], ["4px"], []⟩ rfl (by decide) (by decide)
  have hall := (c10_token_and_line_shapes he).2.2.2 (by decide)
  rw [List.all_eq_true]
  intro l hl
  exact hall l hl
